import Mathlib

/-!
Shallow embedding of the selection-aware Markdown formatting engine of
`src/App.tsx` (the `applyFormat` function and its inner strategies), and
verification of the specification's claims about it.

Documents are modelled as `List Char` (one element per UTF-16 code unit of
the JavaScript string; all characters occurring in the claims are ASCII, so
this is faithful).  Selection offsets returned by the engine are modelled as
`Int`, because the JavaScript code can produce negative offsets
(`end - prefix.length`).  The synchronous `prompt` calls are modelled as
`Option (List Char)` inputs supplied to the engine up front (`none` is a
cancelled prompt, `some s` a prompt answered with `s`), exactly the
auxiliary-input-provider refactoring the spec describes.
-/

namespace MdFmt

/-- Documents and strings are lists of characters (UTF-16 code units). -/
abbrev Str := List Char

/-- Whitespace recognised by JavaScript `String.prototype.trim` and by the
regex class `\s`, restricted to the code points that can appear here. -/
def isWS (c : Char) : Bool :=
  c = ' ' || c = '\t' || c = '\n' || c = '\r' || c = '\x0b' || c = '\x0c' ||
  c = ' ' || c = '﻿'

/-- JavaScript `String.prototype.trim`: drop whitespace from both ends. -/
def jsTrim (s : Str) : Str :=
  ((s.dropWhile isWS).reverse.dropWhile isWS).reverse

/-- JavaScript `str.replace(pat, '')` for a string pattern: remove the first
occurrence of `pat` from `s` (the whole string if there is none). -/
def replaceFirst : Str → Str → Str
  | [], _ => []
  | c :: rest, pat =>
    if pat.isPrefixOf (c :: rest) then List.drop pat.length (c :: rest)
    else c :: replaceFirst rest pat

/-- Largest index `k ≤ f` with `s[k] = c` (JavaScript
`lastIndexOf(c, f)` with a non-negative `f`). -/
def lastIdxLe (s : Str) (c : Char) : Nat → Option Nat
  | 0 => if s[0]? = some c then some 0 else none
  | f + 1 => if s[f + 1]? = some c then some (f + 1) else lastIdxLe s c f

/-- Scan a list for the first occurrence of `c`, numbering its head `i`. -/
def scanIdx (c : Char) : Nat → Str → Option Nat
  | _, [] => none
  | i, d :: rest => if d = c then some i else scanIdx c (i + 1) rest

/-- Smallest index `k ≥ i` with `s[k] = c` (JavaScript `indexOf(c, i)`). -/
def firstIdxGe (s : Str) (c : Char) (i : Nat) : Option Nat :=
  scanIdx c i (s.drop i)

/-- `markdown.lastIndexOf('\n', start - 1) + 1` of `prefixLine`: the line
start used by the heading strategies.  JavaScript clamps the fromIndex
`start - 1` at `0`, which `Nat` subtraction reproduces. -/
def lineStartAt (md : Str) (s : Nat) : Nat :=
  match lastIdxLe md '\n' (s - 1) with
  | some k => k + 1
  | none => 0

/-- `markdown.indexOf('\n', start)` of `prefixLine`, with `-1` replaced by
`markdown.length` as the code does. -/
def lineEndAt (md : Str) (s : Nat) : Nat :=
  (firstIdxGe md '\n' s).getD md.length

/-- JavaScript `String.prototype.substring(a, b)`: clamp both arguments to
`[0, length]` and swap them when `a > b`. -/
def jsSub (s : Str) (a b : Nat) : Str :=
  let a' := min a s.length
  let b' := min b s.length
  (s.take (max a' b')).drop (min a' b')

/-- Truthiness of a `prompt` result: `null` and `""` are falsy. -/
def truthy : Option Str → Bool
  | none => false
  | some s => !s.isEmpty

/-- JavaScript `o || d` on a prompt result, producing a string. -/
def orElseStr (o : Option Str) (d : Str) : Str :=
  match o with
  | some s => if s.isEmpty then d else s
  | none => d

/-- Digits-to-number for `parseInt`'s radix-10 digit run. -/
def digitsToNat (ds : Str) : Nat :=
  ds.foldl (fun a c => a * 10 + (c.toNat - '0'.toNat)) 0

/-- JavaScript `parseInt(s, 10)`: skip leading whitespace, read an optional
sign, then the longest run of decimal digits; `none` models `NaN`. -/
def jsParseInt (s : Str) : Option Int :=
  let t := s.dropWhile isWS
  match t with
  | '-' :: r =>
    let ds := r.takeWhile Char.isDigit
    if ds.isEmpty then none else some (-(digitsToNat ds : Int))
  | '+' :: r =>
    let ds := r.takeWhile Char.isDigit
    if ds.isEmpty then none else some (digitsToNat ds : Int)
  | _ =>
    let ds := t.takeWhile Char.isDigit
    if ds.isEmpty then none else some (digitsToNat ds : Int)

/-- Interpolating a prompt result into a template literal: JavaScript
stringifies `null` as `"null"`. -/
def optStr (o : Option Str) : Str :=
  match o with
  | some s => s
  | none => "null".data

/-- New selection range returned by the engine.  `start`/`stop` are the
`start`/`end` fields of the returned object; they are integers because the
code can return negative offsets. -/
structure Sel where
  start : Int
  stop : Int
deriving Repr, DecidableEq

/-- Result of `applyFormat`: the new markdown and the new selection. -/
structure Res where
  newMarkdown : Str
  newSelection : Sel
deriving Repr, DecidableEq

/-- Auxiliary inputs: the results of the `prompt` calls `applyFormat` can
issue, supplied up front (`none` models a cancelled prompt). -/
structure Aux where
  url : Option Str
  imgUrl : Option Str
  altText : Option Str
  width : Option Str
  colStr : Option Str
  rowStr : Option Str
deriving Repr, DecidableEq

/-- All prompts cancelled. -/
def auxNone : Aux := ⟨none, none, none, none, none, none⟩

/-- The final assembly `markdown.substring(0, start) + newText +
markdown.substring(end)` shared by the `wrap`/list/link branches (line 137)
and by `insert` (line 66). -/
def assemble (md : Str) (s e : Nat) (newText : Str) : Str :=
  jsSub md 0 s ++ newText ++ jsSub md e md.length

/-- The `wrap` strategy (bold/italic/strikethrough/code): surround the
selection by `tok` on both sides; both conditional branches of the source
compute the same selection start. -/
def wrapFmt (tok : Str) (md : Str) (s e : Nat) : Res :=
  let sel := jsSub md s e
  let newText := tok ++ sel ++ tok
  { newMarkdown := assemble md s e newText
    newSelection :=
      { start := (s : Int) + tok.length
        stop :=
          if sel.isEmpty then (s : Int) + tok.length
          else (s : Int) + tok.length + sel.length } }

/-- The `prefixLine` strategy (h1..h6): toggle `pre` on the line containing
`start`. -/
def prefixLine (pre : Str) (md : Str) (s e : Nat) : Res :=
  let ls := lineStartAt md s
  let le := lineEndAt md s
  let line := jsSub md ls le
  if pre.isPrefixOf (jsTrim line) then
    let newLine := replaceFirst line pre
    { newMarkdown := jsSub md 0 ls ++ newLine ++ jsSub md le md.length
      newSelection :=
        { start := max (ls : Int) ((s : Int) - pre.length)
          stop := (e : Int) - pre.length } }
  else
    { newMarkdown := jsSub md 0 ls ++ pre ++ line ++ jsSub md le md.length
      newSelection :=
        { start := (s : Int) + pre.length
          stop := (e : Int) + pre.length } }

/-- The `applyLineFormatting` strategy (`ul`): toggle `lp` across the
selected lines. -/
def lineFormat (lp : Str) (md : Str) (s e : Nat) : Res :=
  let sel := jsSub md s e
  let lines := sel.splitOn '\n'
  let allP := lines.all (fun l => lp.isPrefixOf (jsTrim l))
  let newText :=
    if allP then List.intercalate ['\n'] (lines.map (fun l => replaceFirst l lp))
    else
      List.intercalate ['\n'] (lines.map (fun l =>
        if lp.isPrefixOf (jsTrim l) then l else lp ++ l))
  { newMarkdown := assemble md s e newText
    newSelection := { start := (s : Int), stop := (s : Int) + newText.length } }

/-- The regex test `/^\d+\.\s/.test(l)`. -/
def olRegexTest (l : Str) : Bool :=
  let ds := l.takeWhile Char.isDigit
  !ds.isEmpty &&
    match l.drop ds.length with
    | '.' :: c :: _ => isWS c
    | _ => false

/-- `l.replace(/^\d+\.\s/, '')`: strip the anchored match, if any, from the
raw line. -/
def olStrip (l : Str) : Str :=
  let ds := l.takeWhile Char.isDigit
  if ds.isEmpty then l
  else
    match l.drop ds.length with
    | '.' :: c :: rest => if isWS c then rest else l
    | _ => l

/-- The `ol` branch: strip numbering when every trimmed line matches
`/^\d+\.\s/`, otherwise renumber every line from 1. -/
def olFormat (md : Str) (s e : Nat) : Res :=
  let sel := jsSub md s e
  let lines := sel.splitOn '\n'
  let isNumbered := lines.all (fun l => olRegexTest (jsTrim l))
  let newText :=
    if isNumbered then List.intercalate ['\n'] (lines.map olStrip)
    else
      List.intercalate ['\n'] (lines.enum.map (fun p =>
        Nat.toDigits 10 (p.1 + 1) ++ '.' :: ' ' :: p.2))
  { newMarkdown := assemble md s e newText
    newSelection := { start := (s : Int), stop := (s : Int) + newText.length } }

/-- The `link` branch. -/
def linkFormat (url : Option Str) (md : Str) (s e : Nat) : Res :=
  let sel := jsSub md s e
  let newText :=
    if truthy url then
      '[' :: (if sel.isEmpty then "link text".data else sel) ++
        ']' :: '(' :: url.getD [] ++ [')']
    else sel
  { newMarkdown := assemble md s e newText
    newSelection :=
      { start := (s : Int) + newText.length
        stop := (s : Int) + newText.length } }

/-- The `insert` helper: replace `[start, end]` by `text` and collapse the
caret to `start + cursorOffset`. -/
def insertAt (md : Str) (s e : Nat) (text : Str) (off : Nat) : Res :=
  { newMarkdown := assemble md s e text
    newSelection := { start := (s : Int) + off, stop := (s : Int) + off } }

/-- The `image` branch: a falsy URL degrades to reinserting the selection; a
cancelled alt-text prompt is interpolated as the string `"null"`. -/
def imageFormat (imgUrl altText width : Option Str) (md : Str) (s e : Nat) :
    Res :=
  let sel := jsSub md s e
  let newText :=
    if truthy imgUrl then
      if truthy width then
        "<img src=\"".data ++ imgUrl.getD [] ++ "\" alt=\"".data ++
          optStr altText ++ "\" width=\"".data ++ width.getD [] ++ "\">".data
      else
        "![".data ++ optStr altText ++ "](".data ++ imgUrl.getD [] ++ ")".data
    else sel
  insertAt md s e newText newText.length

/-- One table row: `"| " + cells.join(" | ") + " |"`. -/
def tableRow (c : Nat) (cell : Str) : Str :=
  "| ".data ++ List.intercalate " | ".data (List.replicate c cell) ++ " |".data

/-- The table block for `cn` columns and `rn` rows: a `"Header"` row, a
`"---"` divider row and `rn` `"Cell"` rows, joined by newlines and wrapped
in a leading and trailing newline. -/
def tableBlock (cn rn : Nat) : Str :=
  '\n' :: tableRow cn "Header".data ++ '\n' :: tableRow cn "---".data ++
    '\n' :: List.intercalate ['\n']
      (List.replicate rn (tableRow cn "Cell".data)) ++ ['\n']

/-- The text inserted by the `table` branch, as a function of the two
`parseInt` results (`none` models `NaN`): positive counts build the block,
anything else falls back to the selection. -/
def tableTextCore (pc pr : Option Int) (sel : Str) : Str :=
  match pc, pr with
  | some c, some r =>
    if 0 < c && 0 < r then tableBlock c.toNat r.toNat else sel
  | _, _ => sel

/-- The validity test `!isNaN(cols) && !isNaN(rows) && cols > 0 && rows > 0`
on the two `parseInt` results. -/
def tableOkCore (pc pr : Option Int) : Bool :=
  match pc, pr with
  | some c, some r => 0 < c && 0 < r
  | _, _ => false

/-- Whether the `table` branch accepts its two prompt results. -/
def tableOk (colStr rowStr : Option Str) : Bool :=
  tableOkCore (jsParseInt (orElseStr colStr "2".data))
    (jsParseInt (orElseStr rowStr "2".data))

/-- The `table` branch: `parseInt(prompt(...) || "2", 10)` for both counts;
positive results insert the table block, anything else reinserts the
selection. -/
def tableFormat (colStr rowStr : Option Str) (md : Str) (s e : Nat) : Res :=
  let sel := jsSub md s e
  let newText :=
    tableTextCore (jsParseInt (orElseStr colStr "2".data))
      (jsParseInt (orElseStr rowStr "2".data)) sel
  insertAt md s e newText newText.length

/-- The closed set of format actions. -/
inductive FormatAction
  | bold | italic | strikethrough | code
  | h1 | h2 | h3 | h4 | h5 | h6
  | ul | ol | link | image | table
deriving Repr, DecidableEq

/-- The heading prefix of an action, when it is a heading action. -/
def headTok : FormatAction → Option Str
  | .h1 => some "# ".data
  | .h2 => some "## ".data
  | .h3 => some "### ".data
  | .h4 => some "#### ".data
  | .h5 => some "##### ".data
  | .h6 => some "###### ".data
  | _ => none

/-- The formatting engine `applyFormat` of `src/App.tsx`, with prompt
results supplied through `aux`. -/
def applyFormat (aux : Aux) (f : FormatAction) (md : Str) (s e : Nat) : Res :=
  match f with
  | .bold => wrapFmt "**".data md s e
  | .italic => wrapFmt "*".data md s e
  | .strikethrough => wrapFmt "~~".data md s e
  | .code => wrapFmt "`".data md s e
  | .h1 => prefixLine "# ".data md s e
  | .h2 => prefixLine "## ".data md s e
  | .h3 => prefixLine "### ".data md s e
  | .h4 => prefixLine "#### ".data md s e
  | .h5 => prefixLine "##### ".data md s e
  | .h6 => prefixLine "###### ".data md s e
  | .ul => lineFormat "- ".data md s e
  | .ol => olFormat md s e
  | .link => linkFormat aux.url md s e
  | .image => imageFormat aux.imgUrl aux.altText aux.width md s e
  | .table => tableFormat aux.colStr aux.rowStr md s e

/-! ### Basic facts about the string primitives -/

theorem jsSub_zero_of_le (md : Str) (s : Nat) (h : s ≤ md.length) :
    jsSub md 0 s = md.take s := by
  unfold jsSub
  simp [Nat.min_eq_left h]

theorem jsSub_len_of_le (md : Str) (e : Nat) (h : e ≤ md.length) :
    jsSub md e md.length = md.drop e := by
  unfold jsSub
  simp [Nat.min_eq_left h, Nat.max_eq_right h]

theorem jsSub_eq_slice (md : Str) (s e : Nat) (h1 : s ≤ e) (h2 : e ≤ md.length) :
    jsSub md s e = (md.take e).drop s := by
  unfold jsSub
  have hs : s ≤ md.length := le_trans h1 h2
  simp [Nat.min_eq_left hs, Nat.min_eq_left h2, Nat.max_eq_right h1,
    Nat.min_eq_left h1]

theorem slice_length (md : Str) (s e : Nat) (h1 : s ≤ e) (h2 : e ≤ md.length) :
    ((md.take e).drop s).length = e - s := by
  simp [Nat.min_eq_left h2]

theorem jsSub_length (md : Str) (a b : Nat) :
    (jsSub md a b).length =
      max (min a md.length) (min b md.length) -
        min (min a md.length) (min b md.length) := by
  unfold jsSub
  simp only [List.length_drop, List.length_take]
  omega

theorem take_slice_drop (md : Str) (s e : Nat) (h1 : s ≤ e)
    (h2 : e ≤ md.length) :
    md.take s ++ ((md.take e).drop s ++ md.drop e) = md := by
  have h3 : (md.take e).take s = md.take s := by
    rw [List.take_take, Nat.min_eq_left h1]
  calc md.take s ++ ((md.take e).drop s ++ md.drop e)
      = ((md.take e).take s ++ (md.take e).drop s) ++ md.drop e := by
        rw [h3, List.append_assoc]
    _ = md.take e ++ md.drop e := by rw [List.take_append_drop]
    _ = md := List.take_append_drop e md

theorem assemble_eq (md : Str) (s e : Nat) (t : Str) (h1 : s ≤ e)
    (h2 : e ≤ md.length) :
    assemble md s e t = md.take s ++ t ++ md.drop e := by
  unfold assemble
  rw [jsSub_zero_of_le md s (le_trans h1 h2), jsSub_len_of_le md e h2]

theorem assemble_self (md : Str) (s e : Nat) (h1 : s ≤ e)
    (h2 : e ≤ md.length) :
    assemble md s e (jsSub md s e) = md := by
  rw [assemble_eq md s e _ h1 h2, jsSub_eq_slice md s e h1 h2,
    List.append_assoc, take_slice_drop md s e h1 h2]

theorem assemble_length (md : Str) (s e : Nat) (t : Str) (h1 : s ≤ e)
    (h2 : e ≤ md.length) :
    (assemble md s e t).length = s + t.length + (md.length - e) := by
  rw [assemble_eq md s e t h1 h2]
  simp
  omega

theorem replaceFirst_length_ge (l pat : Str) :
    l.length ≤ (replaceFirst l pat).length + pat.length := by
  induction l with
  | nil => simp [replaceFirst]
  | cons c rest ih =>
    rw [replaceFirst]
    split
    · simp
      omega
    · simp
      omega

theorem replaceFirst_of_isPrefixOf (l pat : Str) (hne : pat ≠ [])
    (h : pat.isPrefixOf l = true) :
    replaceFirst l pat = l.drop pat.length := by
  cases l with
  | nil =>
    have : pat <+: [] := List.isPrefixOf_iff_prefix.mp h
    exact absurd (List.prefix_nil.mp this) hne
  | cons c rest => rw [replaceFirst, if_pos h]

theorem wrapFmt_eq (tok md : Str) (s e : Nat) (h1 : s ≤ e)
    (h2 : e ≤ md.length) :
    wrapFmt tok md s e =
      ⟨md.take s ++ tok ++ (md.take e).drop s ++ tok ++ md.drop e,
       ⟨(s : Int) + tok.length, (s : Int) + tok.length + ((e : Int) - s)⟩⟩ := by
  unfold wrapFmt
  rw [jsSub_eq_slice md s e h1 h2]
  dsimp only
  rw [assemble_eq _ _ _ _ h1 h2]
  simp only [Res.mk.injEq, Sel.mk.injEq]
  refine ⟨by simp [List.append_assoc], trivial, ?_⟩
  have hlen : ((md.take e).drop s).length = e - s := slice_length md s e h1 h2
  split
  · next hemp =>
    have h0 : e - s = 0 := by
      rw [← hlen]
      simpa using List.isEmpty_iff_length_eq_zero.mp hemp
    have : e = s := by omega
    subst this
    simp
  · rw [hlen]
    push_cast [Nat.cast_sub h1]
    ring

/-- Claim C3 (inline-wrap shape): each of `bold`, `italic`, `strikethrough`
and `code` with token `t` returns `text[0:s] + t + text[s:e] + t + text[e:]`
with new selection `{s + len(t), s + len(t) + (e - s)}`; in particular on an
empty selection `bold` yields `text[:s] + "****" + text[e:]` with selection
`{s+2, s+2}`. -/
theorem claim_c3_inline_wrap (aux : Aux) (md : Str) (s e : Nat)
    (h1 : s ≤ e) (h2 : e ≤ md.length) :
    (applyFormat aux .bold md s e =
      ⟨md.take s ++ "**".data ++ (md.take e).drop s ++ "**".data ++ md.drop e,
       ⟨(s : Int) + 2, (s : Int) + 2 + ((e : Int) - s)⟩⟩) ∧
    (applyFormat aux .italic md s e =
      ⟨md.take s ++ "*".data ++ (md.take e).drop s ++ "*".data ++ md.drop e,
       ⟨(s : Int) + 1, (s : Int) + 1 + ((e : Int) - s)⟩⟩) ∧
    (applyFormat aux .strikethrough md s e =
      ⟨md.take s ++ "~~".data ++ (md.take e).drop s ++ "~~".data ++ md.drop e,
       ⟨(s : Int) + 2, (s : Int) + 2 + ((e : Int) - s)⟩⟩) ∧
    (applyFormat aux .code md s e =
      ⟨md.take s ++ "`".data ++ (md.take e).drop s ++ "`".data ++ md.drop e,
       ⟨(s : Int) + 1, (s : Int) + 1 + ((e : Int) - s)⟩⟩) ∧
    (s = e →
      applyFormat aux .bold md s e =
        ⟨md.take s ++ "****".data ++ md.drop e,
         ⟨(s : Int) + 2, (s : Int) + 2⟩⟩) := by
  refine ⟨?_, ?_, ?_, ?_, ?_⟩
  · exact wrapFmt_eq "**".data md s e h1 h2
  · exact wrapFmt_eq "*".data md s e h1 h2
  · exact wrapFmt_eq "~~".data md s e h1 h2
  · exact wrapFmt_eq "`".data md s e h1 h2
  · intro hse
    subst hse
    rw [show applyFormat aux .bold md s s = wrapFmt "**".data md s s from rfl,
      wrapFmt_eq "**".data md s s le_rfl h2]
    have hd : (md.take s).drop s = [] := by
      simp [Nat.min_le_left]
    rw [hd]
    simp

/-- Witness for C3 at a concrete input. -/
theorem claim_c3_inline_wrap_witness :
    1 ≤ 3 ∧ 3 ≤ ("hello".data).length ∧
      (applyFormat auxNone .bold "hello".data 1 3).newMarkdown =
        "h**el**lo".data := by
  refine ⟨by decide, by decide, ?_⟩
  rw [(claim_c3_inline_wrap auxNone "hello".data 1 3 (by decide)
    (by decide)).1]
  decide

/-! ### Characterizations of the index searches -/

theorem lastIdxLe_some_spec (s : Str) (c : Char) (f k : Nat)
    (h : lastIdxLe s c f = some k) :
    k ≤ f ∧ s[k]? = some c ∧ ∀ j, k < j → j ≤ f → s[j]? ≠ some c := by
  induction f with
  | zero =>
    rw [lastIdxLe] at h
    split at h
    · next hc =>
      cases h
      exact ⟨le_rfl, hc, fun j hj1 hj2 => by omega⟩
    · cases h
  | succ f ih =>
    rw [lastIdxLe] at h
    split at h
    · next hc =>
      cases h
      exact ⟨le_rfl, hc, fun j hj1 hj2 => by omega⟩
    · next hc =>
      obtain ⟨hkf, hk, hmax⟩ := ih h
      refine ⟨by omega, hk, fun j hj1 hj2 => ?_⟩
      rcases Nat.lt_or_ge j (f + 1) with hj | hj
      · exact hmax j hj1 (by omega)
      · have hj' : j = f + 1 := by omega
        subst hj'
        exact hc

theorem lastIdxLe_none_spec (s : Str) (c : Char) (f : Nat)
    (h : lastIdxLe s c f = none) : ∀ j, j ≤ f → s[j]? ≠ some c := by
  induction f with
  | zero =>
    rw [lastIdxLe] at h
    intro j hj
    have hj0 : j = 0 := by omega
    subst hj0
    split at h
    · cases h
    · next hc => exact hc
  | succ f ih =>
    rw [lastIdxLe] at h
    split at h
    · cases h
    · next hc =>
      intro j hj
      rcases Nat.lt_or_ge j (f + 1) with hj' | hj'
      · exact ih h j (by omega)
      · have hj'' : j = f + 1 := by omega
        subst hj''
        exact hc

theorem lastIdxLe_eq_some (s : Str) (c : Char) (f k : Nat)
    (hk : s[k]? = some c) (hkf : k ≤ f)
    (hmax : ∀ j, k < j → j ≤ f → s[j]? ≠ some c) :
    lastIdxLe s c f = some k := by
  induction f with
  | zero =>
    have hk0 : k = 0 := by omega
    subst hk0
    rw [lastIdxLe, if_pos hk]
  | succ f ih =>
    rw [lastIdxLe]
    by_cases hc : s[f + 1]? = some c
    · have hkf' : k = f + 1 := by
        by_contra hne
        exact hmax (f + 1) (by omega) le_rfl hc
      subst hkf'
      rw [if_pos hc]
    · rw [if_neg hc]
      have hk' : k ≤ f := by
        rcases Nat.lt_or_ge k (f + 1) with h | h
        · omega
        · have : k = f + 1 := by omega
          subst this
          exact absurd hk hc
      exact ih hk' (fun j hj1 hj2 => hmax j hj1 (by omega))

theorem lastIdxLe_eq_none (s : Str) (c : Char) (f : Nat)
    (h : ∀ j, j ≤ f → s[j]? ≠ some c) : lastIdxLe s c f = none := by
  induction f with
  | zero => rw [lastIdxLe, if_neg (h 0 le_rfl)]
  | succ f ih =>
    rw [lastIdxLe, if_neg (h (f + 1) le_rfl)]
    exact ih (fun j hj => h j (by omega))

theorem scanIdx_none_spec (c : Char) (l : Str) :
    ∀ i, scanIdx c i l = none → ∀ j : Nat, l[j]? ≠ some c := by
  induction l with
  | nil => intro i _ j; simp
  | cons d rest ih =>
    intro i h j
    rw [scanIdx] at h
    split at h
    · cases h
    · next hd =>
      cases j with
      | zero => simpa using hd
      | succ j => simpa using ih (i + 1) h j

theorem scanIdx_eq_none (c : Char) (l : Str) :
    ∀ i, (∀ j : Nat, l[j]? ≠ some c) → scanIdx c i l = none := by
  induction l with
  | nil => intro i _; rfl
  | cons d rest ih =>
    intro i h
    rw [scanIdx]
    have hd : ¬ d = c := by simpa using h 0
    rw [if_neg hd]
    exact ih (i + 1) (fun j => by simpa using h (j + 1))

theorem scanIdx_some_spec (c : Char) (l : Str) :
    ∀ i k, scanIdx c i l = some k →
      i ≤ k ∧ l[k - i]? = some c ∧ ∀ j, j < k - i → l[j]? ≠ some c := by
  induction l with
  | nil => intro i k h; cases h
  | cons d rest ih =>
    intro i k h
    rw [scanIdx] at h
    split at h
    · next hd =>
      cases h
      exact ⟨le_rfl, by simpa using hd, fun j hj => by omega⟩
    · next hd =>
      obtain ⟨h1, h2, h3⟩ := ih (i + 1) k h
      refine ⟨by omega, ?_, ?_⟩
      · have he : k - i = (k - (i + 1)) + 1 := by omega
        rw [he]
        simpa using h2
      · intro j hj
        cases j with
        | zero => simpa using hd
        | succ j =>
          have hj' : j < k - (i + 1) := by omega
          simpa using h3 j hj'

theorem scanIdx_eq_some (c : Char) (l : Str) :
    ∀ i k, i ≤ k → l[k - i]? = some c →
      (∀ j, j < k - i → l[j]? ≠ some c) → scanIdx c i l = some k := by
  induction l with
  | nil => intro i k _ h2 _; simp at h2
  | cons d rest ih =>
    intro i k h1 h2 h3
    rw [scanIdx]
    by_cases hd : d = c
    · rw [if_pos hd]
      have hik : i = k := by
        by_contra hne
        exact h3 0 (by omega) (by simpa using hd)
      rw [hik]
    · rw [if_neg hd]
      have hik : i < k := by
        rcases Nat.eq_or_lt_of_le h1 with he | hl
        · subst he
          simp at h2
          exact absurd h2 hd
        · exact hl
      apply ih (i + 1) k (by omega)
      · have he : k - i = (k - (i + 1)) + 1 := by omega
        rw [he] at h2
        simpa using h2
      · intro j hj
        simpa using h3 (j + 1) (by omega)

theorem firstIdxGe_none_spec (s : Str) (c : Char) (i : Nat)
    (h : firstIdxGe s c i = none) : ∀ j, i ≤ j → s[j]? ≠ some c := by
  intro j hj
  have hd := scanIdx_none_spec c (s.drop i) i h (j - i)
  rw [List.getElem?_drop, Nat.add_sub_cancel' hj] at hd
  exact hd

theorem firstIdxGe_eq_none (s : Str) (c : Char) (i : Nat)
    (h : ∀ j, i ≤ j → s[j]? ≠ some c) : firstIdxGe s c i = none := by
  apply scanIdx_eq_none
  intro j
  rw [List.getElem?_drop]
  exact h (i + j) (by omega)

theorem firstIdxGe_some_spec (s : Str) (c : Char) (i k : Nat)
    (h : firstIdxGe s c i = some k) :
    i ≤ k ∧ s[k]? = some c ∧ ∀ j, i ≤ j → j < k → s[j]? ≠ some c := by
  obtain ⟨h1, h2, h3⟩ := scanIdx_some_spec c (s.drop i) i k h
  rw [List.getElem?_drop, Nat.add_sub_cancel' h1] at h2
  refine ⟨h1, h2, fun j hj1 hj2 => ?_⟩
  have hd := h3 (j - i) (by omega)
  rw [List.getElem?_drop, Nat.add_sub_cancel' hj1] at hd
  exact hd

theorem firstIdxGe_eq_some (s : Str) (c : Char) (i k : Nat) (hik : i ≤ k)
    (hk : s[k]? = some c) (hmin : ∀ j, i ≤ j → j < k → s[j]? ≠ some c) :
    firstIdxGe s c i = some k := by
  apply scanIdx_eq_some c (s.drop i) i k hik
  · rw [List.getElem?_drop, Nat.add_sub_cancel' hik]
    exact hk
  · intro j hj
    rw [List.getElem?_drop]
    exact hmin (i + j) (by omega) (by omega)

/-! ### Facts about the line bounds used by the heading strategy -/

theorem lineStartAt_le (md : Str) (s : Nat) : lineStartAt md s ≤ md.length := by
  unfold lineStartAt
  cases h : lastIdxLe md '\n' (s - 1) with
  | none => exact Nat.zero_le _
  | some k =>
    obtain ⟨-, hk, -⟩ := lastIdxLe_some_spec md '\n' (s - 1) k h
    exact (List.getElem?_eq_some.mp hk).1

theorem lineEndAt_le (md : Str) (s : Nat) : lineEndAt md s ≤ md.length := by
  unfold lineEndAt
  cases h : firstIdxGe md '\n' s with
  | none => exact le_rfl
  | some k =>
    obtain ⟨-, hk, -⟩ := firstIdxGe_some_spec md '\n' s k h
    exact le_of_lt (List.getElem?_eq_some.mp hk).1

theorem lineEndAt_ge (md : Str) (s : Nat) (hs : s ≤ md.length) :
    s ≤ lineEndAt md s := by
  unfold lineEndAt
  cases h : firstIdxGe md '\n' s with
  | none => exact hs
  | some k => exact (firstIdxGe_some_spec md '\n' s k h).1

theorem lineEndAt_no_nl (md : Str) (s : Nat) :
    ∀ j, s ≤ j → j < lineEndAt md s → md[j]? ≠ some '\n' := by
  intro j hj1 hj2
  unfold lineEndAt at hj2
  cases h : firstIdxGe md '\n' s with
  | none => exact firstIdxGe_none_spec md '\n' s h j hj1
  | some k =>
    rw [h] at hj2
    exact (firstIdxGe_some_spec md '\n' s k h).2.2 j hj1 hj2

theorem lineStartAt_eq_some (md : Str) (s k : Nat)
    (h : lastIdxLe md '\n' (s - 1) = some k) : lineStartAt md s = k + 1 := by
  unfold lineStartAt
  rw [h]

theorem lineStartAt_eq_none (md : Str) (s : Nat)
    (h : lastIdxLe md '\n' (s - 1) = none) : lineStartAt md s = 0 := by
  unfold lineStartAt
  rw [h]

theorem lineEndAt_eq_some (md : Str) (s k : Nat)
    (h : firstIdxGe md '\n' s = some k) : lineEndAt md s = k := by
  unfold lineEndAt
  rw [h]
  rfl

theorem lineEndAt_eq_none (md : Str) (s : Nat)
    (h : firstIdxGe md '\n' s = none) : lineEndAt md s = md.length := by
  unfold lineEndAt
  rw [h]
  rfl

theorem lineEndAt_nl (md : Str) (s : Nat) (h : lineEndAt md s < md.length) :
    md[lineEndAt md s]? = some '\n' := by
  cases hf : firstIdxGe md '\n' s with
  | none => rw [lineEndAt_eq_none md s hf] at h; omega
  | some k =>
    rw [lineEndAt_eq_some md s k hf]
    exact (firstIdxGe_some_spec md '\n' s k hf).2.1

theorem lineStartAt_no_nl (md : Str) (s : Nat) :
    ∀ j, lineStartAt md s ≤ j → j ≤ s - 1 → md[j]? ≠ some '\n' := by
  intro j hj1 hj2
  cases h : lastIdxLe md '\n' (s - 1) with
  | none => exact lastIdxLe_none_spec md '\n' (s - 1) h j hj2
  | some k =>
    rw [lineStartAt_eq_some md s k h] at hj1
    exact (lastIdxLe_some_spec md '\n' (s - 1) k h).2.2 j (by omega) hj2

theorem lineStartAt_nl (md : Str) (s : Nat) (h : 1 ≤ lineStartAt md s) :
    md[lineStartAt md s - 1]? = some '\n' := by
  cases hf : lastIdxLe md '\n' (s - 1) with
  | none => rw [lineStartAt_eq_none md s hf] at h; omega
  | some k =>
    rw [lineStartAt_eq_some md s k hf]
    simpa using (lastIdxLe_some_spec md '\n' (s - 1) k hf).2.1

/-! ### Claim C1: locality -/

theorem assemble_locality (md : Str) (s e : Nat) (t : Str) (h1 : s ≤ e)
    (h2 : e ≤ md.length) :
    md.take s <+: assemble md s e t ∧ md.drop e <:+ assemble md s e t := by
  rw [assemble_eq md s e t h1 h2, List.append_assoc]
  exact ⟨List.prefix_append _ _, by
    rw [← List.append_assoc]
    exact List.suffix_append _ _⟩

theorem prefixLine_locality (pre md : Str) (s e : Nat) :
    md.take (lineStartAt md s) <+: (prefixLine pre md s e).newMarkdown ∧
    md.drop (lineEndAt md s) <:+ (prefixLine pre md s e).newMarkdown := by
  have hls := lineStartAt_le md s
  have hle := lineEndAt_le md s
  unfold prefixLine
  dsimp only
  split
  · dsimp only
    rw [jsSub_zero_of_le md _ hls, jsSub_len_of_le md _ hle,
      List.append_assoc]
    exact ⟨List.prefix_append _ _, by
      rw [← List.append_assoc]
      exact List.suffix_append _ _⟩
  · dsimp only
    rw [jsSub_zero_of_le md _ hls, jsSub_len_of_le md _ hle]
    constructor
    · rw [List.append_assoc, List.append_assoc]
      exact List.prefix_append _ _
    · exact List.suffix_append _ _

/-- Counterexample to claim C1 as stated: for the heading action `h1` on
document `"ab"` with caret `[1,1]`, the result is `"# ab"`, and the prefix
`document[0:1] = "a"` is not a prefix of the new document (the heading
strategy edits the whole line containing `start`, reaching before `start`).
-/
theorem claim_c1_counterexample :
    ¬ (("ab".data).take 1 <+:
        (applyFormat auxNone .h1 "ab".data 1 1).newMarkdown) := by
  decide

/-- Claim C1 amended (locality): for every action other than the headings,
`document[0:start]` is a prefix and `document[end:]` is a suffix of
`newDocument`; for the heading actions the same holds with the edited region
widened to the line containing `start`, i.e. with `start` replaced by
`lineStartAt` and `end` by `lineEndAt`. -/
theorem claim_c1_locality_amended (aux : Aux) (f : FormatAction) (md : Str)
    (s e : Nat) (h1 : s ≤ e) (h2 : e ≤ md.length) :
    (headTok f = none →
      md.take s <+: (applyFormat aux f md s e).newMarkdown ∧
      md.drop e <:+ (applyFormat aux f md s e).newMarkdown) ∧
    (∀ t, headTok f = some t →
      md.take (lineStartAt md s) <+: (applyFormat aux f md s e).newMarkdown ∧
      md.drop (lineEndAt md s) <:+ (applyFormat aux f md s e).newMarkdown) := by
  cases f
  case bold =>
    exact ⟨fun _ => assemble_locality md s e _ h1 h2,
      fun t ht => by simp [headTok] at ht⟩
  case italic =>
    exact ⟨fun _ => assemble_locality md s e _ h1 h2,
      fun t ht => by simp [headTok] at ht⟩
  case strikethrough =>
    exact ⟨fun _ => assemble_locality md s e _ h1 h2,
      fun t ht => by simp [headTok] at ht⟩
  case code =>
    exact ⟨fun _ => assemble_locality md s e _ h1 h2,
      fun t ht => by simp [headTok] at ht⟩
  case h1 =>
    exact ⟨fun ht => by simp [headTok] at ht,
      fun t _ => prefixLine_locality _ md s e⟩
  case h2 =>
    exact ⟨fun ht => by simp [headTok] at ht,
      fun t _ => prefixLine_locality _ md s e⟩
  case h3 =>
    exact ⟨fun ht => by simp [headTok] at ht,
      fun t _ => prefixLine_locality _ md s e⟩
  case h4 =>
    exact ⟨fun ht => by simp [headTok] at ht,
      fun t _ => prefixLine_locality _ md s e⟩
  case h5 =>
    exact ⟨fun ht => by simp [headTok] at ht,
      fun t _ => prefixLine_locality _ md s e⟩
  case h6 =>
    exact ⟨fun ht => by simp [headTok] at ht,
      fun t _ => prefixLine_locality _ md s e⟩
  case ul =>
    exact ⟨fun _ => assemble_locality md s e _ h1 h2,
      fun t ht => by simp [headTok] at ht⟩
  case ol =>
    exact ⟨fun _ => assemble_locality md s e _ h1 h2,
      fun t ht => by simp [headTok] at ht⟩
  case link =>
    exact ⟨fun _ => assemble_locality md s e _ h1 h2,
      fun t ht => by simp [headTok] at ht⟩
  case image =>
    exact ⟨fun _ => assemble_locality md s e _ h1 h2,
      fun t ht => by simp [headTok] at ht⟩
  case table =>
    exact ⟨fun _ => assemble_locality md s e _ h1 h2,
      fun t ht => by simp [headTok] at ht⟩

/-- Witness for the amended C1 at concrete inputs. -/
theorem claim_c1_locality_amended_witness :
    1 ≤ 3 ∧ 3 ≤ ("hello".data).length ∧
      (("hello".data).take 1 <+:
        (applyFormat auxNone .bold "hello".data 1 3).newMarkdown) ∧
      (("a\nbc".data).take (lineStartAt "a\nbc".data 3) <+:
        (applyFormat auxNone .h1 "a\nbc".data 3 3).newMarkdown) := by
  refine ⟨by decide, by decide, ?_, ?_⟩
  · exact ((claim_c1_locality_amended auxNone .bold "hello".data 1 3
      (by decide) (by decide)).1 (by decide)).1
  · exact ((claim_c1_locality_amended auxNone .h1 "a\nbc".data 3 3
      (by decide) (by decide)).2 "# ".data (by decide)).1

/-! ### Claim C2: the selection invariant -/

theorem wrapFmt_bounds (tok md : Str) (s e : Nat) (h1 : s ≤ e)
    (h2 : e ≤ md.length) :
    0 ≤ (wrapFmt tok md s e).newSelection.start ∧
    (wrapFmt tok md s e).newSelection.start ≤
      (wrapFmt tok md s e).newSelection.stop ∧
    (wrapFmt tok md s e).newSelection.stop ≤
      ((wrapFmt tok md s e).newMarkdown.length : Int) := by
  rw [wrapFmt_eq tok md s e h1 h2]
  dsimp only
  simp only [List.length_append, List.length_take, List.length_drop]
  omega

theorem assemble_bounds1 (md : Str) (s e : Nat) (X : Str) (h1 : s ≤ e)
    (h2 : e ≤ md.length) :
    0 ≤ (s : Int) ∧ (s : Int) ≤ (s : Int) + X.length ∧
      (s : Int) + X.length ≤ ((assemble md s e X).length : Int) := by
  rw [assemble_length md s e X h1 h2]
  omega

theorem assemble_bounds2 (md : Str) (s e : Nat) (X : Str) (h1 : s ≤ e)
    (h2 : e ≤ md.length) :
    0 ≤ (s : Int) + X.length ∧
      (s : Int) + X.length ≤ ((assemble md s e X).length : Int) := by
  rw [assemble_length md s e X h1 h2]
  omega

theorem lineFormat_shape (lp md : Str) (s e : Nat) :
    ∃ X : Str, lineFormat lp md s e =
      ⟨assemble md s e X, ⟨(s : Int), (s : Int) + X.length⟩⟩ := by
  unfold lineFormat
  exact ⟨_, rfl⟩

theorem olFormat_shape (md : Str) (s e : Nat) :
    ∃ X : Str, olFormat md s e =
      ⟨assemble md s e X, ⟨(s : Int), (s : Int) + X.length⟩⟩ := by
  unfold olFormat
  exact ⟨_, rfl⟩

theorem linkFormat_shape (url : Option Str) (md : Str) (s e : Nat) :
    ∃ X : Str, linkFormat url md s e =
      ⟨assemble md s e X, ⟨(s : Int) + X.length, (s : Int) + X.length⟩⟩ := by
  unfold linkFormat
  exact ⟨_, rfl⟩

theorem imageFormat_shape (imgUrl altText width : Option Str) (md : Str)
    (s e : Nat) :
    ∃ X : Str, imageFormat imgUrl altText width md s e =
      ⟨assemble md s e X, ⟨(s : Int) + X.length, (s : Int) + X.length⟩⟩ := by
  unfold imageFormat insertAt
  exact ⟨_, rfl⟩

theorem tableFormat_shape (colStr rowStr : Option Str) (md : Str) (s e : Nat) :
    ∃ X : Str, tableFormat colStr rowStr md s e =
      ⟨assemble md s e X, ⟨(s : Int) + X.length, (s : Int) + X.length⟩⟩ := by
  unfold tableFormat insertAt
  exact ⟨_, rfl⟩

theorem prefixLine_bounds (pre md : Str) (s e : Nat) (h1 : s ≤ e)
    (h2 : e ≤ md.length)
    (h3 : pre.isPrefixOf
        (jsTrim (jsSub md (lineStartAt md s) (lineEndAt md s))) = true →
      lineStartAt md s + pre.length ≤ e) :
    0 ≤ (prefixLine pre md s e).newSelection.start ∧
    (prefixLine pre md s e).newSelection.start ≤
      (prefixLine pre md s e).newSelection.stop ∧
    (prefixLine pre md s e).newSelection.stop ≤
      ((prefixLine pre md s e).newMarkdown.length : Int) := by
  have hL := lineStartAt_le md s
  have hE := lineEndAt_le md s
  have hlen1 : (jsSub md 0 (lineStartAt md s)).length = lineStartAt md s := by
    rw [jsSub_zero_of_le md _ hL]
    simp [Nat.min_eq_left hL]
  have hlen2 : (jsSub md (lineEndAt md s) md.length).length =
      md.length - lineEndAt md s := by
    rw [jsSub_len_of_le md _ hE]
    simp
  have hlen3 : (jsSub md (lineStartAt md s) (lineEndAt md s)).length =
      max (lineStartAt md s) (lineEndAt md s) -
        min (lineStartAt md s) (lineEndAt md s) := by
    rw [jsSub_length]
    rw [Nat.min_eq_left hL, Nat.min_eq_left hE]
  have hrep := replaceFirst_length_ge
    (jsSub md (lineStartAt md s) (lineEndAt md s)) pre
  unfold prefixLine
  dsimp only
  split
  · next hp =>
    have h3' := h3 hp
    dsimp only
    simp only [List.length_append, hlen1, hlen2]
    constructor
    · omega
    constructor
    · omega
    · omega
  · dsimp only
    simp only [List.length_append, hlen1, hlen2]
    omega

/-- Counterexample to claim C2 as stated: `h1` on the document `"# a"` with
the valid caret `[0,0]` takes the heading-strip branch and returns
`newSelection.end = 0 - 2 = -2`, an out-of-bounds (negative) offset. -/
theorem claim_c2_counterexample :
    (applyFormat auxNone .h1 "# a".data 0 0).newSelection.stop < 0 := by
  decide

/-- Guard excluded by the C2 counterexample: for a heading action whose line
already carries the prefix (the strip branch), the original `end` must not
precede `lineStart + len(prefix)`. -/
def c2Ok (f : FormatAction) (md : Str) (s e : Nat) : Bool :=
  match headTok f with
  | none => true
  | some t =>
    !(t.isPrefixOf (jsTrim (jsSub md (lineStartAt md s) (lineEndAt md s)))) ||
      decide (lineStartAt md s + t.length ≤ e)

set_option maxHeartbeats 1600000 in
/-- Claim C2 amended (in-bounds selection invariant): for every action and
valid input range, provided a heading-strip application satisfies
`lineStart + len(prefix) ≤ end` (the case its violation exhibits is the
counterexample), the returned selection satisfies
`0 ≤ start ≤ end ≤ length(newDocument)`. -/
theorem claim_c2_inbounds_amended (aux : Aux) (f : FormatAction) (md : Str)
    (s e : Nat) (h1 : s ≤ e) (h2 : e ≤ md.length)
    (h3 : c2Ok f md s e = true) :
    0 ≤ (applyFormat aux f md s e).newSelection.start ∧
    (applyFormat aux f md s e).newSelection.start ≤
      (applyFormat aux f md s e).newSelection.stop ∧
    (applyFormat aux f md s e).newSelection.stop ≤
      (((applyFormat aux f md s e).newMarkdown).length : Int) := by
  have hhead : ∀ t : Str, headTok f = some t →
      t.isPrefixOf
          (jsTrim (jsSub md (lineStartAt md s) (lineEndAt md s))) = true →
      lineStartAt md s + t.length ≤ e := by
    intro t ht hp
    have hc : c2Ok f md s e =
        (!(t.isPrefixOf
            (jsTrim (jsSub md (lineStartAt md s) (lineEndAt md s)))) ||
          decide (lineStartAt md s + t.length ≤ e)) := by
      unfold c2Ok
      rw [ht]
    rw [hc, hp] at h3
    simpa using h3
  have hb1 := fun X => assemble_bounds1 md s e X h1 h2
  have hb2 := fun X => assemble_bounds2 md s e X h1 h2
  cases f
  case bold => exact wrapFmt_bounds "**".data md s e h1 h2
  case italic => exact wrapFmt_bounds "*".data md s e h1 h2
  case strikethrough => exact wrapFmt_bounds "~~".data md s e h1 h2
  case code => exact wrapFmt_bounds "`".data md s e h1 h2
  case h1 => exact prefixLine_bounds "# ".data md s e h1 h2 (hhead _ rfl)
  case h2 => exact prefixLine_bounds "## ".data md s e h1 h2 (hhead _ rfl)
  case h3 => exact prefixLine_bounds "### ".data md s e h1 h2 (hhead _ rfl)
  case h4 => exact prefixLine_bounds "#### ".data md s e h1 h2 (hhead _ rfl)
  case h5 => exact prefixLine_bounds "##### ".data md s e h1 h2 (hhead _ rfl)
  case h6 => exact prefixLine_bounds "###### ".data md s e h1 h2 (hhead _ rfl)
  case ul =>
    obtain ⟨X, hX⟩ := lineFormat_shape "- ".data md s e
    have hconv : applyFormat aux .ul md s e = lineFormat "- ".data md s e :=
      rfl
    rw [hconv, hX]
    exact hb1 X
  case ol =>
    obtain ⟨X, hX⟩ := olFormat_shape md s e
    have hconv : applyFormat aux .ol md s e = olFormat md s e := rfl
    rw [hconv, hX]
    exact hb1 X
  case link =>
    obtain ⟨X, hX⟩ := linkFormat_shape aux.url md s e
    have hconv : applyFormat aux .link md s e = linkFormat aux.url md s e :=
      rfl
    rw [hconv, hX]
    obtain ⟨hb, hb'⟩ := hb2 X
    exact ⟨hb, le_rfl, hb'⟩
  case image =>
    obtain ⟨X, hX⟩ :=
      imageFormat_shape aux.imgUrl aux.altText aux.width md s e
    have hconv : applyFormat aux .image md s e =
        imageFormat aux.imgUrl aux.altText aux.width md s e := rfl
    rw [hconv, hX]
    obtain ⟨hb, hb'⟩ := hb2 X
    exact ⟨hb, le_rfl, hb'⟩
  case table =>
    obtain ⟨X, hX⟩ := tableFormat_shape aux.colStr aux.rowStr md s e
    have hconv : applyFormat aux .table md s e =
        tableFormat aux.colStr aux.rowStr md s e := rfl
    rw [hconv, hX]
    obtain ⟨hb, hb'⟩ := hb2 X
    exact ⟨hb, le_rfl, hb'⟩

/-- Witness for the amended C2 at a concrete input (a heading-strip
application satisfying the amended guard). -/
theorem claim_c2_inbounds_amended_witness :
    3 ≤ ("# a".data).length ∧ c2Ok .h1 "# a".data 3 3 = true ∧
      0 ≤ (applyFormat auxNone .h1 "# a".data 3 3).newSelection.start := by
  refine ⟨by decide, by decide, ?_⟩
  exact (claim_c2_inbounds_amended auxNone .h1 "# a".data 3 3 (by decide)
    (by decide) (by decide)).1

/-! ### Claim C4: degraded auxiliary input -/

theorem jsSub_length_of_le (md : Str) (s e : Nat) (h1 : s ≤ e)
    (h2 : e ≤ md.length) : (jsSub md s e).length = e - s := by
  rw [jsSub_eq_slice md s e h1 h2]
  exact slice_length md s e h1 h2

theorem linkFormat_noop (url : Option Str) (md : Str) (s e : Nat)
    (h1 : s ≤ e) (h2 : e ≤ md.length) (h : truthy url = false) :
    linkFormat url md s e = ⟨md, ⟨(e : Int), (e : Int)⟩⟩ := by
  unfold linkFormat
  dsimp only
  rw [h]
  simp only [Bool.false_eq_true, if_false]
  rw [assemble_self md s e h1 h2]
  simp only [Res.mk.injEq, Sel.mk.injEq, jsSub_length_of_le md s e h1 h2]
  refine ⟨trivial, ?_, ?_⟩ <;> omega

theorem imageFormat_noop (imgUrl altText width : Option Str) (md : Str)
    (s e : Nat) (h1 : s ≤ e) (h2 : e ≤ md.length)
    (h : truthy imgUrl = false) :
    imageFormat imgUrl altText width md s e = ⟨md, ⟨(e : Int), (e : Int)⟩⟩ := by
  unfold imageFormat insertAt
  dsimp only
  rw [h]
  simp only [Bool.false_eq_true, if_false]
  rw [assemble_self md s e h1 h2]
  simp only [Res.mk.injEq, Sel.mk.injEq, jsSub_length_of_le md s e h1 h2]
  refine ⟨trivial, ?_, ?_⟩ <;> omega

theorem tableTextCore_noop (pc pr : Option Int) (sel : Str)
    (h : tableOkCore pc pr = false) : tableTextCore pc pr sel = sel := by
  cases pc with
  | none => cases pr <;> rfl
  | some c =>
    cases pr with
    | none => rfl
    | some r =>
      have hb : (0 < c && 0 < r) = false := h
      simp only [tableTextCore]
      rw [hb]
      simp

theorem tableFormat_noop (colStr rowStr : Option Str) (md : Str) (s e : Nat)
    (h1 : s ≤ e) (h2 : e ≤ md.length) (h : tableOk colStr rowStr = false) :
    tableFormat colStr rowStr md s e = ⟨md, ⟨(e : Int), (e : Int)⟩⟩ := by
  unfold tableFormat insertAt
  dsimp only
  rw [tableTextCore_noop _ _ _ h]
  rw [assemble_self md s e h1 h2]
  simp only [Res.mk.injEq, Sel.mk.injEq, jsSub_length_of_le md s e h1 h2]
  refine ⟨trivial, ?_, ?_⟩ <;> omega

/-- Counterexample to claim C4 as stated, in two parts: (1) a `table` action
whose two prompts are cancelled is NOT a no-op — the `prompt(...) || "2"`
fallback inserts a default 2x2 table; (2) an `image` action with a declined
URL does return the original document but does NOT preserve the original
selection `[0,2]` — it collapses it to `[2,2]`. -/
theorem claim_c4_counterexample :
    (applyFormat auxNone .table "ab".data 0 0).newMarkdown ≠ "ab".data ∧
    (applyFormat auxNone .image "ab".data 0 2).newMarkdown = "ab".data ∧
    (applyFormat auxNone .image "ab".data 0 2).newSelection ≠ ⟨0, 2⟩ := by
  refine ⟨by decide, by decide, by decide⟩

/-- Claim C4 amended (no-op on declined auxiliary input): for every document
and valid range, a `link` with falsy URL, an `image` with falsy URL, and a
`table` whose (defaulted) count strings do not parse to two positive
integers all return `newDocument = document` with the selection collapsed to
`{end, end}`; a `table` whose prompts are both cancelled is accepted via the
`"2"` defaults rather than degrading to a no-op. -/
theorem claim_c4_noop_amended (aux : Aux) (md : Str) (s e : Nat)
    (h1 : s ≤ e) (h2 : e ≤ md.length) :
    (truthy aux.url = false →
      applyFormat aux .link md s e = ⟨md, ⟨(e : Int), (e : Int)⟩⟩) ∧
    (truthy aux.imgUrl = false →
      applyFormat aux .image md s e = ⟨md, ⟨(e : Int), (e : Int)⟩⟩) ∧
    (tableOk aux.colStr aux.rowStr = false →
      applyFormat aux .table md s e = ⟨md, ⟨(e : Int), (e : Int)⟩⟩) ∧
    (aux.colStr = none → aux.rowStr = none →
      tableOk aux.colStr aux.rowStr = true) := by
  refine ⟨?_, ?_, ?_, ?_⟩
  · intro h
    exact linkFormat_noop aux.url md s e h1 h2 h
  · intro h
    exact imageFormat_noop aux.imgUrl aux.altText aux.width md s e h1 h2 h
  · intro h
    exact tableFormat_noop aux.colStr aux.rowStr md s e h1 h2 h
  · intro hc hr
    rw [show tableOk aux.colStr aux.rowStr =
      tableOkCore (jsParseInt (orElseStr aux.colStr "2".data))
        (jsParseInt (orElseStr aux.rowStr "2".data)) from rfl, hc, hr]
    decide

/-- Witness for the amended C4 at concrete inputs. -/
theorem claim_c4_noop_amended_witness :
    0 ≤ 2 ∧ 2 ≤ ("ab".data).length ∧
      applyFormat ⟨none, none, none, none, some "x".data, some "2".data⟩
        .table "ab".data 0 2 = ⟨"ab".data, ⟨2, 2⟩⟩ := by
  refine ⟨by decide, by decide, ?_⟩
  exact (claim_c4_noop_amended
    ⟨none, none, none, none, some "x".data, some "2".data⟩ "ab".data 0 2
    (by decide) (by decide)).2.2.1 (by decide)

/-! ### Claims C7 and C6: the list toggles -/

theorem prefix_of_trim (l p : Str) (h : p.isPrefixOf (jsTrim l) = true) :
    p.isPrefixOf (l.dropWhile isWS) = true := by
  rw [List.isPrefixOf_iff_prefix] at h ⊢
  refine h.trans ?_
  unfold jsTrim
  obtain ⟨t, ht⟩ := List.dropWhile_suffix (l := (l.dropWhile isWS).reverse)
    (p := isWS)
  refine ⟨t.reverse, ?_⟩
  calc ((l.dropWhile isWS).reverse.dropWhile isWS).reverse ++ t.reverse
      = (t ++ (l.dropWhile isWS).reverse.dropWhile isWS).reverse := by
        rw [List.reverse_append]
    _ = ((l.dropWhile isWS).reverse).reverse := by rw [ht]
    _ = l.dropWhile isWS := by simp

theorem replaceFirst_ws (p0 : Char) (p' : Str) (hws : isWS p0 = false) :
    ∀ l : Str, (p0 :: p').isPrefixOf (l.dropWhile isWS) = true →
      replaceFirst l (p0 :: p') =
        l.takeWhile isWS ++ (l.dropWhile isWS).drop (p0 :: p').length := by
  intro l
  induction l with
  | nil => intro h; simp at h
  | cons c rest ih =>
    intro h
    by_cases hc : isWS c = true
    · have hd : (c :: rest).dropWhile isWS = rest.dropWhile isWS := by
        simp [List.dropWhile_cons, hc]
      have htk : (c :: rest).takeWhile isWS = c :: rest.takeWhile isWS := by
        simp [List.takeWhile_cons, hc]
      rw [hd] at h
      rw [replaceFirst]
      have hnp : (p0 :: p').isPrefixOf (c :: rest) = false := by
        rw [Bool.eq_false_iff]
        intro hb
        rw [List.isPrefixOf_iff_prefix] at hb
        obtain ⟨he, -⟩ := List.cons_prefix_cons.mp hb
        rw [he] at hws
        rw [hws] at hc
        cases hc
      rw [hnp]
      simp only [Bool.false_eq_true, if_false]
      rw [ih h, htk, hd]
      simp
    · have hc' : isWS c = false := by
        rw [Bool.eq_false_iff]
        exact hc
      have hd : (c :: rest).dropWhile isWS = c :: rest := by
        simp [List.dropWhile_cons, hc']
      have htk : (c :: rest).takeWhile isWS = [] := by
        simp [List.takeWhile_cons, hc']
      rw [hd] at h
      rw [replaceFirst, if_pos h, htk, hd]
      simp

/-- Removal of the `"- "` marker as the spec words it: the marker sits right
after the line's leading whitespace and is deleted there. -/
def ulStrip (l : Str) : Str :=
  l.takeWhile isWS ++ (l.dropWhile isWS).drop 2

/-- Claim C7 (unordered-list toggle): over the selected lines, if every
line's trimmed content starts with `"- "` the marker is removed from every
line (from just after its leading whitespace); otherwise `"- "` is added to
exactly the lines that do not already have it; the new selection is
`[start, start + len(newJoinedText)]`.  The claim's two example scenarios
are included. -/
theorem claim_c7_ul_toggle (aux : Aux) (md : Str) (s e : Nat) (h1 : s ≤ e)
    (h2 : e ≤ md.length) :
    ((∀ l ∈ ((md.take e).drop s).splitOn '\n',
        ("- ".data).isPrefixOf (jsTrim l) = true) →
      applyFormat aux .ul md s e =
        ⟨md.take s ++
            List.intercalate ['\n']
              ((((md.take e).drop s).splitOn '\n').map ulStrip) ++
            md.drop e,
         ⟨(s : Int),
          (s : Int) +
            (List.intercalate ['\n']
              ((((md.take e).drop s).splitOn '\n').map ulStrip)).length⟩⟩) ∧
    ((¬ ∀ l ∈ ((md.take e).drop s).splitOn '\n',
        ("- ".data).isPrefixOf (jsTrim l) = true) →
      applyFormat aux .ul md s e =
        ⟨md.take s ++
            List.intercalate ['\n']
              ((((md.take e).drop s).splitOn '\n').map (fun l =>
                if ("- ".data).isPrefixOf (jsTrim l) then l
                else "- ".data ++ l)) ++
            md.drop e,
         ⟨(s : Int),
          (s : Int) +
            (List.intercalate ['\n']
              ((((md.take e).drop s).splitOn '\n').map (fun l =>
                if ("- ".data).isPrefixOf (jsTrim l) then l
                else "- ".data ++ l))).length⟩⟩) ∧
    (applyFormat aux .ul "a\n- b".data 0 5 = ⟨"- a\n- b".data, ⟨0, 7⟩⟩) ∧
    (applyFormat aux .ul "- a\n- b".data 0 7 = ⟨"a\nb".data, ⟨0, 3⟩⟩) := by
  have hconv : applyFormat aux .ul md s e = lineFormat "- ".data md s e := rfl
  refine ⟨?_, ?_, ?_, ?_⟩
  case refine_3 =>
    rw [show applyFormat aux .ul "a\n- b".data 0 5 =
      lineFormat "- ".data "a\n- b".data 0 5 from rfl]
    decide
  case refine_4 =>
    rw [show applyFormat aux .ul "- a\n- b".data 0 7 =
      lineFormat "- ".data "- a\n- b".data 0 7 from rfl]
    decide
  · intro hall
    rw [hconv]
    unfold lineFormat
    dsimp only
    rw [jsSub_eq_slice md s e h1 h2]
    have hallb : ((((md.take e).drop s).splitOn '\n').all (fun l =>
        ("- ".data).isPrefixOf (jsTrim l))) = true := by
      rw [List.all_eq_true]
      exact hall
    rw [hallb]
    simp only [if_true]
    have hmap : ((((md.take e).drop s).splitOn '\n').map (fun l =>
        replaceFirst l "- ".data)) =
        (((md.take e).drop s).splitOn '\n').map ulStrip := by
      refine List.map_congr_left (fun l hl => ?_)
      have hpre := prefix_of_trim l "- ".data (hall l hl)
      exact replaceFirst_ws '-' " ".data (by decide) l hpre
    rw [hmap, assemble_eq md s e _ h1 h2]
  · intro hn
    rw [hconv]
    unfold lineFormat
    dsimp only
    rw [jsSub_eq_slice md s e h1 h2]
    have hallb : ((((md.take e).drop s).splitOn '\n').all (fun l =>
        ("- ".data).isPrefixOf (jsTrim l))) = false := by
      rw [Bool.eq_false_iff]
      intro hT
      rw [List.all_eq_true] at hT
      exact hn hT
    rw [hallb]
    simp only [Bool.false_eq_true, if_false]
    rw [assemble_eq md s e _ h1 h2]

/-- Witness for C7 at a concrete input with a hypothesis discharged. -/
theorem claim_c7_ul_toggle_witness :
    0 ≤ 7 ∧ 7 ≤ ("- a\n- b".data).length ∧
      applyFormat auxNone .ul "- a\n- b".data 0 7 =
        ⟨"a\nb".data, ⟨0, 3⟩⟩ := by
  refine ⟨by decide, by decide, ?_⟩
  exact (claim_c7_ul_toggle auxNone "- a\n- b".data 0 7 (by decide)
    (by decide)).2.2.2

/-- Counterexample to claim C6 as stated: for the single selected line
`" 1. x"` the trimmed content matches `^\d+\.\s`, so the strip branch is
taken, but the replacement regex is applied to the raw line anchored at its
start, where it does not match — the numbering is NOT stripped and the line
comes back unchanged (still matching the numbered pattern), contradicting
"the leading numbering is stripped from each line". -/
theorem claim_c6_counterexample :
    olRegexTest (jsTrim " 1. x".data) = true ∧
    (applyFormat auxNone .ol " 1. x".data 0 5).newMarkdown = " 1. x".data ∧
    olRegexTest
      (jsTrim (applyFormat auxNone .ol " 1. x".data 0 5).newMarkdown) =
      true := by
  refine ⟨by decide, by decide, by decide⟩

/-- Claim C6 amended (ordered-list toggle): if every selected line's trimmed
content matches `^\d+\.\s` then each raw line has the anchored match
stripped — lines whose numbering follows leading whitespace are left
unchanged; otherwise every line is renumbered sequentially from 1; the new
selection is `[start, start + len(newJoinedText)]`.  The claim's example
scenarios hold as stated. -/
theorem claim_c6_ol_amended (aux : Aux) (md : Str) (s e : Nat) (h1 : s ≤ e)
    (h2 : e ≤ md.length) :
    ((∀ l ∈ ((md.take e).drop s).splitOn '\n',
        olRegexTest (jsTrim l) = true) →
      applyFormat aux .ol md s e =
        ⟨md.take s ++
            List.intercalate ['\n']
              ((((md.take e).drop s).splitOn '\n').map olStrip) ++
            md.drop e,
         ⟨(s : Int),
          (s : Int) +
            (List.intercalate ['\n']
              ((((md.take e).drop s).splitOn '\n').map olStrip)).length⟩⟩) ∧
    ((¬ ∀ l ∈ ((md.take e).drop s).splitOn '\n',
        olRegexTest (jsTrim l) = true) →
      applyFormat aux .ol md s e =
        ⟨md.take s ++
            List.intercalate ['\n']
              ((((md.take e).drop s).splitOn '\n').enum.map (fun p =>
                Nat.toDigits 10 (p.1 + 1) ++ '.' :: ' ' :: p.2)) ++
            md.drop e,
         ⟨(s : Int),
          (s : Int) +
            (List.intercalate ['\n']
              ((((md.take e).drop s).splitOn '\n').enum.map (fun p =>
                Nat.toDigits 10 (p.1 + 1) ++ '.' :: ' ' :: p.2))).length⟩⟩) ∧
    (applyFormat aux .ol "3. x\n7. y".data 0 9 = ⟨"x\ny".data, ⟨0, 3⟩⟩) ∧
    (applyFormat aux .ol "x\ny".data 0 3 = ⟨"1. x\n2. y".data, ⟨0, 9⟩⟩) := by
  have hconv : applyFormat aux .ol md s e = olFormat md s e := rfl
  refine ⟨?_, ?_, ?_, ?_⟩
  case refine_3 =>
    rw [show applyFormat aux .ol "3. x\n7. y".data 0 9 =
      olFormat "3. x\n7. y".data 0 9 from rfl]
    decide
  case refine_4 =>
    rw [show applyFormat aux .ol "x\ny".data 0 3 =
      olFormat "x\ny".data 0 3 from rfl]
    decide
  · intro hall
    rw [hconv]
    unfold olFormat
    dsimp only
    rw [jsSub_eq_slice md s e h1 h2]
    have hallb : ((((md.take e).drop s).splitOn '\n').all (fun l =>
        olRegexTest (jsTrim l))) = true := by
      rw [List.all_eq_true]
      exact hall
    rw [hallb]
    simp only [if_true]
    rw [assemble_eq md s e _ h1 h2]
  · intro hn
    rw [hconv]
    unfold olFormat
    dsimp only
    rw [jsSub_eq_slice md s e h1 h2]
    have hallb : ((((md.take e).drop s).splitOn '\n').all (fun l =>
        olRegexTest (jsTrim l))) = false := by
      rw [Bool.eq_false_iff]
      intro hT
      rw [List.all_eq_true] at hT
      exact hn hT
    rw [hallb]
    simp only [Bool.false_eq_true, if_false]
    rw [assemble_eq md s e _ h1 h2]

/-- Witness for the amended C6 at a concrete input. -/
theorem claim_c6_ol_amended_witness :
    0 ≤ 9 ∧ 9 ≤ ("3. x\n7. y".data).length ∧
      applyFormat auxNone .ol "3. x\n7. y".data 0 9 =
        ⟨"x\ny".data, ⟨0, 3⟩⟩ := by
  refine ⟨by decide, by decide, ?_⟩
  exact (claim_c6_ol_amended auxNone "3. x\n7. y".data 0 9 (by decide)
    (by decide)).2.2.1

/-! ### Claims C8, C9, C10: table and image insertion -/

/-- Claim C8 (table insertion): when the (defaulted) column and row inputs
parse to positive integers `c` and `r`, the block replacing `[start, end]`
is `tableBlock c r` — a `"Header"` row of `c` cells, a `"---"` divider row
and `r` `"Cell"` rows, each written `"| " ++ cells joined by " | " ++ " |"`,
wrapped in a leading and trailing newline — and the caret collapses to
`start + len(block)`; the claim's `"3"`/`"1"` example is included. -/
theorem claim_c8_table (aux : Aux) (md : Str) (s e : Nat) (c r : Int)
    (h1 : s ≤ e) (h2 : e ≤ md.length)
    (hc : jsParseInt (orElseStr aux.colStr "2".data) = some c)
    (hr : jsParseInt (orElseStr aux.rowStr "2".data) = some r)
    (hcp : 0 < c) (hrp : 0 < r) :
    applyFormat aux .table md s e =
      ⟨md.take s ++ tableBlock c.toNat r.toNat ++ md.drop e,
       ⟨(s : Int) + (tableBlock c.toNat r.toNat).length,
        (s : Int) + (tableBlock c.toNat r.toNat).length⟩⟩ ∧
    tableRow c.toNat "Header".data =
      "| ".data ++
        List.intercalate " | ".data
          (List.replicate c.toNat "Header".data) ++ " |".data ∧
    applyFormat ⟨none, none, none, none, some "3".data, some "1".data⟩
        .table "".data 0 0 =
      ⟨("\n| Header | Header | Header |\n| --- | --- | --- |" ++
          "\n| Cell | Cell | Cell |\n").data,
       ⟨73, 73⟩⟩ := by
  refine ⟨?_, rfl, by decide⟩
  have hconv : applyFormat aux .table md s e =
      tableFormat aux.colStr aux.rowStr md s e := rfl
  rw [hconv]
  unfold tableFormat insertAt
  dsimp only
  rw [hc, hr]
  have htxt : tableTextCore (some c) (some r) (jsSub md s e) =
      tableBlock c.toNat r.toNat := by
    simp only [tableTextCore]
    have hb : (0 < c && 0 < r) = true := by simp [hcp, hrp]
    rw [hb]
    simp
  rw [htxt, assemble_eq md s e _ h1 h2]

/-- Witness for C8 at a concrete input. -/
theorem claim_c8_table_witness :
    jsParseInt (orElseStr (some "3".data) "2".data) = some 3 ∧
      (applyFormat ⟨none, none, none, none, some "3".data, some "1".data⟩
          .table "ab".data 1 1).newMarkdown =
        ("a\n| Header | Header | Header |\n| --- | --- | --- |" ++
          "\n| Cell | Cell | Cell |\nb").data := by
  refine ⟨by decide, ?_⟩
  rw [(claim_c8_table ⟨none, none, none, none, some "3".data, some "1".data⟩
    "ab".data 1 1 3 1 (by decide) (by decide) (by decide) (by decide)
    (by decide) (by decide)).1]
  decide

/-- Claim C9 (implicit, embedded "null" alt text): for an `image` action
with a truthy URL and a cancelled alt-text prompt, the literal string
`"null"` is interpolated as the alt value — `<img src="u" alt="null"
width="w">` when a truthy width is given, `![null](u)` otherwise. -/
theorem claim_c9_image_null_alt (md : Str) (s e : Nat)
    (ou oc orr : Option Str) (u w : Str) (h1 : s ≤ e) (h2 : e ≤ md.length)
    (hu : u ≠ []) (hw : w ≠ []) :
    (applyFormat ⟨ou, some u, none, some w, oc, orr⟩ .image md s e =
      ⟨md.take s ++
          ("<img src=\"".data ++ u ++ "\" alt=\"".data ++ "null".data ++
            "\" width=\"".data ++ w ++ "\">".data) ++ md.drop e,
       ⟨(s : Int) + ("<img src=\"".data ++ u ++ "\" alt=\"".data ++
          "null".data ++ "\" width=\"".data ++ w ++ "\">".data).length,
        (s : Int) + ("<img src=\"".data ++ u ++ "\" alt=\"".data ++
          "null".data ++ "\" width=\"".data ++ w ++ "\">".data).length⟩⟩) ∧
    (applyFormat ⟨ou, some u, none, none, oc, orr⟩ .image md s e =
      ⟨md.take s ++
          ("![".data ++ "null".data ++ "](".data ++ u ++ ")".data) ++
          md.drop e,
       ⟨(s : Int) + ("![".data ++ "null".data ++ "](".data ++ u ++
          ")".data).length,
        (s : Int) + ("![".data ++ "null".data ++ "](".data ++ u ++
          ")".data).length⟩⟩) := by
  have htu : truthy (some u) = true := by
    simp [truthy, List.isEmpty_iff, hu]
  have htw : truthy (some w) = true := by
    simp [truthy, List.isEmpty_iff, hw]
  constructor
  · rw [show applyFormat ⟨ou, some u, none, some w, oc, orr⟩ .image md s e =
      imageFormat (some u) none (some w) md s e from rfl]
    unfold imageFormat insertAt
    dsimp only
    rw [htu, htw]
    simp only [if_true]
    rw [show optStr none = "null".data from rfl,
      assemble_eq md s e _ h1 h2]
    simp only [Option.getD_some]
  · rw [show applyFormat ⟨ou, some u, none, none, oc, orr⟩ .image md s e =
      imageFormat (some u) none none md s e from rfl]
    unfold imageFormat insertAt
    dsimp only
    rw [htu, show truthy none = false from rfl]
    simp only [if_true, Bool.false_eq_true, if_false]
    rw [show optStr none = "null".data from rfl,
      assemble_eq md s e _ h1 h2]
    simp only [Option.getD_some]

/-- Witness for C9 at a concrete input. -/
theorem claim_c9_image_null_alt_witness :
    ("u".data : Str) ≠ [] ∧
      (applyFormat ⟨none, some "u".data, none, none, none, none⟩ .image
          "ab".data 1 1).newMarkdown = "a![null](u)b".data := by
  refine ⟨by decide, ?_⟩
  rw [(claim_c9_image_null_alt "ab".data 1 1 none none none "u".data
    "w".data (by decide) (by decide) (by decide) (by decide)).2]
  decide

/-- Claim C10 (implicit, parseInt semantics for the table counts): the table
counts are parsed by longest-leading-integer (`parseInt`) semantics, so
`"3.7"` and `"2px"` parse to `3` and `2` and behave exactly like `"3"` and
`"2"` (producing a table, not a no-op), and cancelled prompts fall back to
the default `"2"`, behaving like explicit `"2"` inputs and inserting a 2x2
table rather than a no-op. -/
theorem claim_c10_parseInt_table (md : Str) (s e : Nat)
    (ou oi oa ow : Option Str) :
    jsParseInt "3.7".data = some 3 ∧
    jsParseInt "2px".data = some 2 ∧
    (applyFormat ⟨ou, oi, oa, ow, some "3.7".data, some "1".data⟩
        .table md s e =
      applyFormat ⟨ou, oi, oa, ow, some "3".data, some "1".data⟩
        .table md s e) ∧
    (applyFormat ⟨ou, oi, oa, ow, some "2px".data, some "1".data⟩
        .table md s e =
      applyFormat ⟨ou, oi, oa, ow, some "2".data, some "1".data⟩
        .table md s e) ∧
    (applyFormat ⟨ou, oi, oa, ow, none, none⟩ .table md s e =
      applyFormat ⟨ou, oi, oa, ow, some "2".data, some "2".data⟩
        .table md s e) ∧
    (applyFormat auxNone .table "ab".data 0 0).newMarkdown ≠ "ab".data ∧
    (applyFormat ⟨none, none, none, none, some "3.7".data, some "1".data⟩
        .table "".data 0 0).newMarkdown =
      ("\n| Header | Header | Header |\n| --- | --- | --- |" ++
        "\n| Cell | Cell | Cell |\n").data := by
  refine ⟨by decide, by decide, ?_, ?_, ?_, by decide, by decide⟩
  · rw [show applyFormat ⟨ou, oi, oa, ow, some "3.7".data, some "1".data⟩
        .table md s e =
      tableFormat (some "3.7".data) (some "1".data) md s e from rfl,
      show applyFormat ⟨ou, oi, oa, ow, some "3".data, some "1".data⟩
        .table md s e =
      tableFormat (some "3".data) (some "1".data) md s e from rfl]
    unfold tableFormat
    rw [show jsParseInt (orElseStr (some "3.7".data) "2".data) = some 3
        from by decide,
      show jsParseInt (orElseStr (some "3".data) "2".data) = some 3
        from by decide]
  · rw [show applyFormat ⟨ou, oi, oa, ow, some "2px".data, some "1".data⟩
        .table md s e =
      tableFormat (some "2px".data) (some "1".data) md s e from rfl,
      show applyFormat ⟨ou, oi, oa, ow, some "2".data, some "1".data⟩
        .table md s e =
      tableFormat (some "2".data) (some "1".data) md s e from rfl]
    unfold tableFormat
    rw [show jsParseInt (orElseStr (some "2px".data) "2".data) = some 2
        from by decide,
      show jsParseInt (orElseStr (some "2".data) "2".data) = some 2
        from by decide]
  · rw [show applyFormat ⟨ou, oi, oa, ow, none, none⟩ .table md s e =
      tableFormat none none md s e from rfl,
      show applyFormat ⟨ou, oi, oa, ow, some "2".data, some "2".data⟩
        .table md s e =
      tableFormat (some "2".data) (some "2".data) md s e from rfl]
    unfold tableFormat
    rw [show jsParseInt (orElseStr (none : Option Str) "2".data) = some 2
        from by decide,
      show jsParseInt (orElseStr (some "2".data) "2".data) = some 2
        from by decide]

/-! ### Claim C5: the heading round-trip -/

theorem getElem?_append4 (a b u v : Str) (j : Nat) :
    (a ++ b ++ u ++ v)[j]? =
      if j < a.length then (a[j]?)
      else if j < a.length + b.length then (b[j - a.length]?)
      else if j < a.length + b.length + u.length then
        (u[j - (a.length + b.length)]?)
      else (v[j - (a.length + b.length + u.length)]?) := by
  rw [List.append_assoc, List.append_assoc, List.getElem?_append,
    List.getElem?_append, List.getElem?_append]
  simp only [Nat.sub_sub]
  split_ifs <;> first | rfl | omega

theorem dropTrail_append (a b : Str) (hb : b.reverse.dropWhile isWS ≠ []) :
    ((a ++ b).reverse.dropWhile isWS).reverse =
      a ++ (b.reverse.dropWhile isWS).reverse := by
  rw [List.reverse_append, List.dropWhile_append,
    if_neg (by simp [List.isEmpty_iff, hb]), List.reverse_append]
  simp

theorem trim_nonblank_rev (l : Str) (h : jsTrim l ≠ []) :
    l.reverse.dropWhile isWS ≠ [] := by
  intro h0
  apply h
  have hall : ∀ x ∈ l, isWS x = true := by
    intro x hx
    exact List.dropWhile_eq_nil_iff.mp h0 x (List.mem_reverse.mpr hx)
  have hfront : l.dropWhile isWS = [] := List.dropWhile_eq_nil_iff.mpr hall
  unfold jsTrim
  rw [hfront]
  rfl

theorem trim_token_prefix (c : Char) (t' line : Str) (hc : isWS c = false)
    (hne : jsTrim line ≠ []) :
    (c :: t').isPrefixOf (jsTrim ((c :: t') ++ line)) = true := by
  have h1 : ((c :: t') ++ line).dropWhile isWS = (c :: t') ++ line := by
    simp [List.dropWhile_cons, hc]
  have h2 : jsTrim ((c :: t') ++ line) =
      (c :: t') ++ (line.reverse.dropWhile isWS).reverse := by
    unfold jsTrim
    rw [h1]
    exact dropTrail_append (c :: t') line (trim_nonblank_rev line hne)
  rw [h2, List.isPrefixOf_iff_prefix]
  exact List.prefix_append _ _

theorem replaceFirst_token (c : Char) (t' line : Str) :
    replaceFirst ((c :: t') ++ line) (c :: t') = line := by
  have hp : (c :: t').isPrefixOf ((c :: t') ++ line) = true := by
    rw [List.isPrefixOf_iff_prefix]
    exact List.prefix_append _ _
  rw [show (c :: t') ++ line = c :: (t' ++ line) from rfl, replaceFirst]
  rw [show c :: (t' ++ line) = (c :: t') ++ line from rfl, if_pos hp]
  exact List.drop_left _ _

theorem line_no_nl (md : Str) (s : Nat) :
    ∀ j, lineStartAt md s ≤ j → j < lineEndAt md s → md[j]? ≠ some '\n' := by
  intro j hj1 hj2
  rcases Nat.lt_or_ge j s with hjs | hjs
  · exact lineStartAt_no_nl md s j hj1 (by omega)
  · exact lineEndAt_no_nl md s j hjs hj2

theorem prefixLine_prepend (pre md : Str) (s e : Nat)
    (hnp : pre.isPrefixOf
      (jsTrim (jsSub md (lineStartAt md s) (lineEndAt md s))) = false) :
    prefixLine pre md s e =
      ⟨md.take (lineStartAt md s) ++ pre ++
          jsSub md (lineStartAt md s) (lineEndAt md s) ++
          md.drop (lineEndAt md s),
       ⟨(s : Int) + pre.length, (e : Int) + pre.length⟩⟩ := by
  unfold prefixLine
  dsimp only
  rw [hnp]
  simp only [Bool.false_eq_true, if_false]
  rw [jsSub_zero_of_le md _ (lineStartAt_le md s),
    jsSub_len_of_le md _ (lineEndAt_le md s)]

theorem prefixLine_strip (pre md : Str) (s e : Nat)
    (hp : pre.isPrefixOf
      (jsTrim (jsSub md (lineStartAt md s) (lineEndAt md s))) = true) :
    prefixLine pre md s e =
      ⟨md.take (lineStartAt md s) ++
          replaceFirst (jsSub md (lineStartAt md s) (lineEndAt md s)) pre ++
          md.drop (lineEndAt md s),
       ⟨max ((lineStartAt md s : Nat) : Int) ((s : Int) - pre.length),
        (e : Int) - pre.length⟩⟩ := by
  unfold prefixLine
  dsimp only
  rw [hp]
  simp only [if_true]
  rw [jsSub_zero_of_le md _ (lineStartAt_le md s),
    jsSub_len_of_le md _ (lineEndAt_le md s)]

/-- Applying a heading toggle to a document of the shape produced by a
heading prepend, at the shifted caret, strips the freshly inserted token and
restores the original document and caret. -/
theorem heading_second (md md' : Str) (s L E : Nat) (c : Char) (t' : Str)
    (hwsc : isWS c = false) (hnl : '\n' ∉ c :: t')
    (hs : s ≤ md.length) (hL : L ≤ s) (hE1 : s ≤ E) (hE2 : E ≤ md.length)
    (hnoNl : ∀ j, L ≤ j → j < E → md[j]? ≠ some '\n')
    (hLnl : 1 ≤ L → md[L - 1]? = some '\n')
    (hEnl : E < md.length → md[E]? = some '\n')
    (htne : jsTrim (jsSub md L E) ≠ [])
    (hmd' : md' = md.take L ++ (c :: t') ++ jsSub md L E ++ md.drop E) :
    prefixLine (c :: t') md' (s + (c :: t').length) (s + (c :: t').length) =
      ⟨md, ⟨(s : Int), (s : Int)⟩⟩ := by
  have hp1 : 1 ≤ (c :: t').length := by simp
  have hLE : L ≤ E := le_trans hL hE1
  have hL2 : L ≤ md.length := le_trans hLE hE2
  have hlen : (jsSub md L E).length = E - L := jsSub_length_of_le md L E hLE hE2
  have hlenA : (md.take L).length = L := by simp [Nat.min_eq_left hL2]
  have hmd'len : md'.length = md.length + (c :: t').length := by
    rw [hmd']
    simp only [List.length_append, hlenA, hlen, List.length_drop]
    omega
  have hlineget : ∀ i, i < E - L → (jsSub md L E)[i]? = md[L + i]? := by
    intro i hi
    rw [jsSub_eq_slice md L E hLE hE2, List.getElem?_drop, List.getElem?_take,
      if_pos (by omega)]
  have hget : ∀ j : Nat, md'[j]? =
      if j < L then (md[j]?)
      else if j < L + (c :: t').length then ((c :: t')[j - L]?)
      else if j < E + (c :: t').length then
        ((jsSub md L E)[j - (L + (c :: t').length)]?)
      else (md[j - (c :: t').length]?) := by
    intro j
    rw [hmd', getElem?_append4, hlenA, hlen]
    have hsum : L + (c :: t').length + (E - L) = E + (c :: t').length := by
      omega
    rw [hsum]
    split_ifs with g1 g2 g3
    · rw [List.getElem?_take, if_pos g1]
    · rfl
    · rfl
    · rw [List.getElem?_drop]
      congr 1
      omega
  have hLs' : lineStartAt md' (s + (c :: t').length) = L := by
    rcases Nat.eq_zero_or_pos L with hL0 | hLpos
    · have hnone : lastIdxLe md' '\n' (s + (c :: t').length - 1) = none := by
        apply lastIdxLe_eq_none
        intro j hj
        rw [hget j]
        split_ifs with g1 g2 g3
        all_goals first
          | omega
          | (intro he; exact hnl (List.getElem?_mem he))
          | (rw [hlineget _ (by omega)]; exact hnoNl _ (by omega) (by omega))
      rw [lineStartAt_eq_none md' _ hnone]
      omega
    · have hsome : lastIdxLe md' '\n' (s + (c :: t').length - 1) =
          some (L - 1) := by
        apply lastIdxLe_eq_some
        · rw [hget (L - 1), if_pos (by omega)]
          exact hLnl hLpos
        · omega
        · intro j hj1 hj2
          rw [hget j]
          split_ifs with g1 g2 g3
          all_goals first
            | omega
            | (intro he; exact hnl (List.getElem?_mem he))
            | (rw [hlineget _ (by omega)];
                exact hnoNl _ (by omega) (by omega))
      rw [lineStartAt_eq_some md' _ _ hsome]
      omega
  have hEs' : lineEndAt md' (s + (c :: t').length) = E + (c :: t').length := by
    rcases Nat.lt_or_ge E md.length with hElt | hEge
    · have hsome : firstIdxGe md' '\n' (s + (c :: t').length) =
          some (E + (c :: t').length) := by
        apply firstIdxGe_eq_some
        · omega
        · rw [hget (E + (c :: t').length)]
          split_ifs with g1 g2 g3
          all_goals first
            | omega
            | (rw [show E + (c :: t').length - (c :: t').length = E
                from by omega];
                exact hEnl hElt)
        · intro j hj1 hj2
          rw [hget j]
          split_ifs with g1 g2 g3
          all_goals first
            | omega
            | (rw [hlineget _ (by omega)];
                exact hnoNl _ (by omega) (by omega))
      rw [lineEndAt_eq_some md' _ _ hsome]
    · have hnone : firstIdxGe md' '\n' (s + (c :: t').length) = none := by
        apply firstIdxGe_eq_none
        intro j hj
        rw [hget j]
        split_ifs with g1 g2 g3
        all_goals first
          | omega
          | (rw [hlineget _ (by omega)];
              exact hnoNl _ (by omega) (by omega))
          | (rw [List.getElem?_eq_none (by omega)]; simp)
      rw [lineEndAt_eq_none md' _ hnone, hmd'len]
      omega
  have hlen3 : (md.take L ++ (c :: t') ++ jsSub md L E).length =
      E + (c :: t').length := by
    simp only [List.length_append, hlenA, hlen]
    omega
  have hregroupR : md' = (md.take L ++ (c :: t') ++ jsSub md L E) ++
      md.drop E := by
    rw [hmd']
  have hregroupL : md.take L ++ (c :: t') ++ jsSub md L E =
      md.take L ++ ((c :: t') ++ jsSub md L E) := by
    rw [List.append_assoc]
  have hline' : jsSub md' L (E + (c :: t').length) =
      (c :: t') ++ jsSub md L E := by
    rw [jsSub_eq_slice md' L (E + (c :: t').length) (by omega)
      (by rw [hmd'len]; omega)]
    rw [hregroupR, List.take_left' hlen3, hregroupL, List.drop_left' hlenA]
  have htakeL : md'.take L = md.take L := by
    rw [hregroupR, hregroupL, List.append_assoc,
      List.take_left' hlenA]
  have hdropE : md'.drop (E + (c :: t').length) = md.drop E := by
    rw [hregroupR, List.drop_left' hlen3]
  have hdecomp : md.take L ++ jsSub md L E ++ md.drop E = md := by
    rw [jsSub_eq_slice md L E hLE hE2, List.append_assoc]
    exact take_slice_drop md L E hLE hE2
  have hp' : (c :: t').isPrefixOf
      (jsTrim (jsSub md' (lineStartAt md' (s + (c :: t').length))
        (lineEndAt md' (s + (c :: t').length)))) = true := by
    rw [hLs', hEs', hline']
    exact trim_token_prefix c t' (jsSub md L E) hwsc htne
  have h2 := prefixLine_strip (c :: t') md' (s + (c :: t').length)
    (s + (c :: t').length) hp'
  rw [hLs', hEs', hline', replaceFirst_token c t' (jsSub md L E), htakeL,
    hdropE, hdecomp] at h2
  rw [h2]
  simp only [Res.mk.injEq, Sel.mk.injEq]
  refine ⟨trivial, ?_, ?_⟩
  · have hmax : max ((L : Nat) : Int)
        (((s + (c :: t').length : Nat) : Int) - (c :: t').length) =
        (s : Int) := by
      push_cast
      rw [add_sub_cancel_right]
      exact max_eq_right (by exact_mod_cast hL)
    exact hmax
  · push_cast
    ring

theorem heading_roundtrip (md : Str) (s : Nat) (c : Char) (t' : Str)
    (hwsc : isWS c = false) (hnl : '\n' ∉ c :: t') (hs : s ≤ md.length)
    (hL : lineStartAt md s ≤ s)
    (hnp : (c :: t').isPrefixOf
      (jsTrim (jsSub md (lineStartAt md s) (lineEndAt md s))) = false)
    (htne : jsTrim (jsSub md (lineStartAt md s) (lineEndAt md s)) ≠ []) :
    prefixLine (c :: t') md s s =
      ⟨md.take (lineStartAt md s) ++ (c :: t') ++
          jsSub md (lineStartAt md s) (lineEndAt md s) ++
          md.drop (lineEndAt md s),
       ⟨(s : Int) + (c :: t').length, (s : Int) + (c :: t').length⟩⟩ ∧
    prefixLine (c :: t')
        (md.take (lineStartAt md s) ++ (c :: t') ++
          jsSub md (lineStartAt md s) (lineEndAt md s) ++
          md.drop (lineEndAt md s)) (s + (c :: t').length)
        (s + (c :: t').length) =
      ⟨md, ⟨(s : Int), (s : Int)⟩⟩ := by
  refine ⟨prefixLine_prepend (c :: t') md s s hnp, ?_⟩
  exact heading_second md _ s (lineStartAt md s) (lineEndAt md s) c t' hwsc
    hnl hs hL (lineEndAt_ge md s hs) (lineEndAt_le md s) (line_no_nl md s)
    (lineStartAt_nl md s) (lineEndAt_nl md s) htne rfl

/-- Counterexample to claim C5 as stated: on the empty document with caret
0, applying `h1` yields `"# "` with caret `[2,2]`, and applying `h1` again
at that caret yields `"# # "`, not the original document — the line `"# "`
trims to `"#"`, which does not start with `"# "`, so the second application
prepends instead of stripping. -/
theorem claim_c5_counterexample :
    (applyFormat auxNone .h1 "".data 0 0).newSelection = ⟨2, 2⟩ ∧
    (applyFormat auxNone .h1
      ((applyFormat auxNone .h1 "".data 0 0).newMarkdown) 2 2).newMarkdown =
      "# # ".data ∧
    "# # ".data ≠ ("".data : Str) := by
  refine ⟨by decide, by decide, by decide⟩

/-- Claim C5 amended (heading toggle round-trip): for every heading action
with prefix `t`, document, and caret whose line (computed as the code does,
which requires `lineStart ≤ caret` — false only when the document starts
with a newline and the caret is 0) does not already carry the prefix and is
not blank, applying the heading inserts `t` at the line start and moves the
caret by `len(t)`, and applying the same heading again at the resulting
caret restores the original document and caret exactly.  (Blank lines, the
newline-at-0 edge, and lines already carrying the prefix are the cases the
counterexample family excludes.) -/
theorem claim_c5_heading_roundtrip_amended (aux : Aux) (f : FormatAction)
    (t : Str) (md : Str) (s : Nat) (ht : headTok f = some t)
    (hs : s ≤ md.length) (hL : lineStartAt md s ≤ s)
    (hnp : t.isPrefixOf
      (jsTrim (jsSub md (lineStartAt md s) (lineEndAt md s))) = false)
    (htne : jsTrim (jsSub md (lineStartAt md s) (lineEndAt md s)) ≠ []) :
    applyFormat aux f md s s =
      ⟨md.take (lineStartAt md s) ++ t ++
          jsSub md (lineStartAt md s) (lineEndAt md s) ++
          md.drop (lineEndAt md s),
       ⟨(s : Int) + t.length, (s : Int) + t.length⟩⟩ ∧
    applyFormat aux f (applyFormat aux f md s s).newMarkdown (s + t.length)
        (s + t.length) = ⟨md, ⟨(s : Int), (s : Int)⟩⟩ := by
  cases f
  case bold => exact absurd ht (by simp [headTok])
  case italic => exact absurd ht (by simp [headTok])
  case strikethrough => exact absurd ht (by simp [headTok])
  case code => exact absurd ht (by simp [headTok])
  case ul => exact absurd ht (by simp [headTok])
  case ol => exact absurd ht (by simp [headTok])
  case link => exact absurd ht (by simp [headTok])
  case image => exact absurd ht (by simp [headTok])
  case table => exact absurd ht (by simp [headTok])
  case h1 =>
    have heq : "# ".data = t := Option.some.inj ht
    subst heq
    have h := heading_roundtrip md s '#' " ".data (by decide) (by decide)
      hs hL hnp htne
    refine ⟨h.1, ?_⟩
    rw [show applyFormat aux .h1 md s s = prefixLine "# ".data md s s
      from rfl, h.1]
    exact h.2
  case h2 =>
    have heq : "## ".data = t := Option.some.inj ht
    subst heq
    have h := heading_roundtrip md s '#' "# ".data (by decide) (by decide)
      hs hL hnp htne
    refine ⟨h.1, ?_⟩
    rw [show applyFormat aux .h2 md s s = prefixLine "## ".data md s s
      from rfl, h.1]
    exact h.2
  case h3 =>
    have heq : "### ".data = t := Option.some.inj ht
    subst heq
    have h := heading_roundtrip md s '#' "## ".data (by decide) (by decide)
      hs hL hnp htne
    refine ⟨h.1, ?_⟩
    rw [show applyFormat aux .h3 md s s = prefixLine "### ".data md s s
      from rfl, h.1]
    exact h.2
  case h4 =>
    have heq : "#### ".data = t := Option.some.inj ht
    subst heq
    have h := heading_roundtrip md s '#' "### ".data (by decide) (by decide)
      hs hL hnp htne
    refine ⟨h.1, ?_⟩
    rw [show applyFormat aux .h4 md s s = prefixLine "#### ".data md s s
      from rfl, h.1]
    exact h.2
  case h5 =>
    have heq : "##### ".data = t := Option.some.inj ht
    subst heq
    have h := heading_roundtrip md s '#' "#### ".data (by decide) (by decide)
      hs hL hnp htne
    refine ⟨h.1, ?_⟩
    rw [show applyFormat aux .h5 md s s = prefixLine "##### ".data md s s
      from rfl, h.1]
    exact h.2
  case h6 =>
    have heq : "###### ".data = t := Option.some.inj ht
    subst heq
    have h := heading_roundtrip md s '#' "##### ".data (by decide)
      (by decide) hs hL hnp htne
    refine ⟨h.1, ?_⟩
    rw [show applyFormat aux .h6 md s s = prefixLine "###### ".data md s s
      from rfl, h.1]
    exact h.2

/-- Witness for the amended C5 at a concrete input. -/
theorem claim_c5_heading_roundtrip_amended_witness :
    (applyFormat auxNone .h1 "hello".data 0 0).newMarkdown =
        "# hello".data ∧
      applyFormat auxNone .h1
          (applyFormat auxNone .h1 "hello".data 0 0).newMarkdown 2 2 =
        ⟨"hello".data, ⟨0, 0⟩⟩ := by
  have h := claim_c5_heading_roundtrip_amended auxNone .h1 "# ".data
    "hello".data 0 rfl (by decide) (by decide) (by decide) (by decide)
  constructor
  · rw [h.1]
    decide
  · exact h.2

end MdFmt
